import Mathlib

/-!
Shallow embedding of `src/index.ts`, an Azle (Internet Computer) canister
tracking users and their workout sessions.

Modelling choices:
* `Principal` is an opaque identity with decidable equality; we model it as
  `String` (the source compares principals via `toString`, which agrees with
  plain equality on this model).
* `nat64` timestamps and calories are `Nat`; `ic.time()` and `ic.caller()` are
  environment inputs, so each update operation takes the caller (and, where the
  source reads the clock, the current time) as an explicit parameter.
* `uuidv4()` is an environment input too: `startWorkout` takes the generated id
  as a parameter.  The claims assume the generator never collides, which the
  step relation expresses as a freshness hypothesis.
* `StableBTreeMap` is modelled as an association list (`SMap`) with
  `get` / `containsKey` / `insert` / `remove` / `values`; `containsKey` is
  `isSome` of `get`, matching the store's coherence.  Where the source guards a
  `get(..).Some` unwrap with `containsKey`, the model uses a single `match` on
  `get`, which is extensionally the same program.
* JS `toLowerCase` / `trim` are modelled by the character-list functions
  `jsToLower` / `jsTrim`; they agree with JS on the ASCII data this canister
  handles.
-/

abbrev Principal := String

structure User where
  id : Principal
  createdAt : Nat
  sessionIds : List String
  name : String
deriving DecidableEq, Repr

structure WorkoutSession where
  id : String
  userId : Principal
  startedAt : Nat
  finishedAt : Nat
  calories : Nat
  muscleGroup : String
deriving DecidableEq, Repr

/-- The `Errors` Variant of the source, with the source's tags. -/
inductive Errors where
  | WorkoutDoesNotExist : String → Errors
  | UserDoesNotExist : Principal → Errors
  | UserDoesExist : Principal → Errors
  | MuscleGroupDoesNotExist : String → Errors
  | AuthenticationFail : Principal → Errors
  | InvalidPayload : String → Errors
deriving DecidableEq, Repr

/-- Azle's `Result(T, Errors)`: `Ok` or `Err`. -/
inductive Res (T : Type) where
  | Ok : T → Res T
  | Err : Errors → Res T
deriving DecidableEq, Repr

/-- The Candid tag of each error variant, as declared in the source. -/
def errTag : Errors → String
  | .WorkoutDoesNotExist _ => "WorkoutDoesNotExist"
  | .UserDoesNotExist _ => "UserDoesNotExist"
  | .UserDoesExist _ => "UserDoesExist"
  | .MuscleGroupDoesNotExist _ => "MuscleGroupDoesNotExist"
  | .AuthenticationFail _ => "AuthenticationFail"
  | .InvalidPayload _ => "InvalidPayload"

/-- Association-list model of `StableBTreeMap`. -/
structure SMap (K V : Type) where
  entries : List (K × V)
deriving DecidableEq, Repr

namespace SMap

variable {K V : Type} [DecidableEq K]

def getEntries : List (K × V) → K → Option V
  | [], _ => none
  | p :: rest, k => if p.1 = k then some p.2 else getEntries rest k

def get (m : SMap K V) (k : K) : Option V := getEntries m.entries k

def containsKey (m : SMap K V) (k : K) : Bool := (m.get k).isSome

def empty : SMap K V := ⟨[]⟩

def insert (m : SMap K V) (k : K) (v : V) : SMap K V :=
  if m.containsKey k then
    ⟨m.entries.map (fun p => if p.1 = k then (k, v) else p)⟩
  else
    ⟨m.entries ++ [(k, v)]⟩

def remove (m : SMap K V) (k : K) : SMap K V :=
  ⟨m.entries.filter (fun p => decide (p.1 ≠ k))⟩

/-- The `forEach`/`remove` cascade of `deleteUser`. -/
def removeAll (m : SMap K V) (ids : List K) : SMap K V :=
  ids.foldl (fun acc k => acc.remove k) m

def values (m : SMap K V) : List V := m.entries.map Prod.snd

theorem getEntries_append (l1 l2 : List (K × V)) (k : K) :
    getEntries (l1 ++ l2) k =
      match getEntries l1 k with
      | some v => some v
      | none => getEntries l2 k := by
  induction l1 with
  | nil => simp [getEntries]
  | cons p rest ih =>
    by_cases hp : p.1 = k
    · simp [getEntries, hp]
    · simp [getEntries, hp, ih]

theorem getEntries_map_replace (l : List (K × V)) (k : K) (v : V)
    (h : (getEntries l k).isSome) :
    getEntries (l.map (fun p => if p.1 = k then (k, v) else p)) k = some v := by
  induction l with
  | nil => simp [getEntries] at h
  | cons p rest ih =>
    by_cases hp : p.1 = k
    · simp [getEntries, hp]
    · simp [getEntries, hp] at h ⊢
      exact ih h

theorem getEntries_map_replace_ne (l : List (K × V)) (k k' : K) (v : V)
    (hne : k' ≠ k) :
    getEntries (l.map (fun p => if p.1 = k then (k, v) else p)) k' =
      getEntries l k' := by
  induction l with
  | nil => rfl
  | cons p rest ih =>
    by_cases hp : p.1 = k
    · simp [getEntries, hp, Ne.symm hne, ih]
    · simp only [List.map_cons, getEntries, if_neg hp]
      by_cases hp' : p.1 = k'
      · simp [hp']
      · simp [hp', ih]

theorem getEntries_filter_self (l : List (K × V)) (k : K) :
    getEntries (l.filter (fun p => decide (p.1 ≠ k))) k = none := by
  induction l with
  | nil => rfl
  | cons p rest ih =>
    by_cases hp : p.1 = k
    · rw [List.filter_cons_of_neg (by simp [hp])]
      exact ih
    · rw [List.filter_cons_of_pos (by simp [hp])]
      simp only [getEntries, if_neg hp]
      exact ih

theorem getEntries_filter_ne (l : List (K × V)) (k k' : K) (hne : k' ≠ k) :
    getEntries (l.filter (fun p => decide (p.1 ≠ k))) k' = getEntries l k' := by
  induction l with
  | nil => rfl
  | cons p rest ih =>
    by_cases hp : p.1 = k
    · rw [List.filter_cons_of_neg (by simp [hp])]
      have hp' : ¬ p.1 = k' := by rw [hp]; exact Ne.symm hne
      simp only [getEntries, if_neg hp']
      exact ih
    · rw [List.filter_cons_of_pos (by simp [hp])]
      simp only [getEntries]
      by_cases hp' : p.1 = k'
      · simp [hp']
      · simp only [if_neg hp']
        exact ih

theorem getEntries_mem (l : List (K × V)) (k : K) (v : V)
    (h : getEntries l k = some v) : (k, v) ∈ l := by
  induction l with
  | nil => simp [getEntries] at h
  | cons p rest ih =>
    by_cases hp : p.1 = k
    · simp only [getEntries, if_pos hp, Option.some.injEq] at h
      have hpk : p = (k, v) := by
        cases p
        simp_all
      rw [← hpk]
      exact List.mem_cons_self _ _
    · simp only [getEntries, if_neg hp] at h
      exact List.mem_cons_of_mem _ (ih h)

theorem get_insert_self (m : SMap K V) (k : K) (v : V) :
    (m.insert k v).get k = some v := by
  unfold insert
  by_cases h : m.containsKey k
  · rw [if_pos h]
    exact getEntries_map_replace _ _ _ h
  · rw [if_neg h]
    have h0 : getEntries m.entries k = none :=
      Option.not_isSome_iff_eq_none.mp (by simpa [containsKey, get] using h)
    show getEntries (m.entries ++ [(k, v)]) k = some v
    rw [getEntries_append, h0]
    simp [getEntries]

theorem get_insert_ne (m : SMap K V) (k k' : K) (v : V) (hne : k' ≠ k) :
    (m.insert k v).get k' = m.get k' := by
  unfold insert
  by_cases h : m.containsKey k
  · rw [if_pos h]
    exact getEntries_map_replace_ne _ _ _ _ hne
  · rw [if_neg h]
    show getEntries (m.entries ++ [(k, v)]) k' = m.get k'
    rw [getEntries_append]
    cases hcase : getEntries m.entries k' with
    | some w => simp [get, hcase]
    | none => simp [get, hcase, getEntries, Ne.symm hne]

theorem get_remove_self (m : SMap K V) (k : K) : (m.remove k).get k = none :=
  getEntries_filter_self m.entries k

theorem get_remove_ne (m : SMap K V) (k k' : K) (hne : k' ≠ k) :
    (m.remove k).get k' = m.get k' :=
  getEntries_filter_ne m.entries k k' hne

theorem get_removeAll (m : SMap K V) (ids : List K) (k : K) :
    (m.removeAll ids).get k = if k ∈ ids then none else m.get k := by
  induction ids generalizing m with
  | nil => simp [removeAll]
  | cons i rest ih =>
    have hstep : m.removeAll (i :: rest) = (m.remove i).removeAll rest := rfl
    rw [hstep, ih]
    by_cases hk : k = i
    · subst hk
      simp [get_remove_self]
    · simp [hk, get_remove_ne _ _ _ hk]

theorem mem_entries_insert (m : SMap K V) (k : K) (v : V) (p : K × V)
    (hp : p ∈ (m.insert k v).entries) : p = (k, v) ∨ p ∈ m.entries := by
  unfold insert at hp
  by_cases h : m.containsKey k
  · rw [if_pos h] at hp
    obtain ⟨q, hq, hfq⟩ := List.mem_map.mp hp
    by_cases hq1 : q.1 = k
    · left
      rw [← hfq]
      simp [hq1]
    · right
      rw [← hfq]
      simpa [hq1] using hq
  · rw [if_neg h] at hp
    rcases List.mem_append.mp hp with h1 | h2
    · right
      exact h1
    · left
      simpa using h2

theorem mem_entries_remove (m : SMap K V) (k : K) (p : K × V)
    (hp : p ∈ (m.remove k).entries) : p ∈ m.entries ∧ p.1 ≠ k := by
  unfold remove at hp
  have := List.mem_filter.mp hp
  exact ⟨this.1, by simpa using this.2⟩

theorem mem_entries_removeAll (m : SMap K V) (ids : List K) (p : K × V)
    (hp : p ∈ (m.removeAll ids).entries) : p ∈ m.entries ∧ p.1 ∉ ids := by
  induction ids generalizing m with
  | nil => simpa [removeAll] using hp
  | cons i rest ih =>
    have hstep : m.removeAll (i :: rest) = (m.remove i).removeAll rest := rfl
    rw [hstep] at hp
    obtain ⟨h1, h2⟩ := ih _ hp
    obtain ⟨h3, h4⟩ := mem_entries_remove _ _ _ h1
    exact ⟨h3, by simp [h4, h2]⟩

theorem get_mem (m : SMap K V) (k : K) (v : V) (h : m.get k = some v) :
    (k, v) ∈ m.entries :=
  getEntries_mem m.entries k v h

theorem mem_values (m : SMap K V) (v : V) :
    v ∈ m.values ↔ ∃ p ∈ m.entries, p.2 = v := by
  simp [values, List.mem_map]

theorem self_mem_values_insert (m : SMap K V) (k : K) (v : V) :
    v ∈ (m.insert k v).values := by
  unfold insert
  by_cases h : m.containsKey k
  · rw [if_pos h]
    obtain ⟨w, hw⟩ := Option.isSome_iff_exists.mp h
    have hmem := get_mem _ _ _ hw
    show v ∈ List.map Prod.snd _
    refine List.mem_map.mpr ⟨(k, v), List.mem_map.mpr ⟨(k, w), hmem, ?_⟩, rfl⟩
    simp
  · rw [if_neg h]
    simp [values]
end SMap

/-- `const POSSIBLE_GROUPS = ["shouders", "back", "chest", "legs", "cardio"]`
(sic: the source spells the first group "shouders"). -/
def POSSIBLE_GROUPS : List String := ["shouders", "back", "chest", "legs", "cardio"]

/-- JS `toLowerCase`, on ASCII strings. -/
def jsToLower (s : String) : String := String.mk (s.data.map Char.toLower)

/-- JS `trim`, on ASCII strings: drop whitespace at both ends. -/
def jsTrim (s : String) : String :=
  String.mk (((s.data.dropWhile Char.isWhitespace).reverse.dropWhile Char.isWhitespace).reverse)

/-- `const isInvalidString = (str) => str.trim().length == 0` -/
def isInvalidString (str : String) : Bool := (jsTrim str).length == 0

/-- A single-quote character, used in the muscle-group error message. -/
def squote : String := "\x27"

/-- JS stringification of the `POSSIBLE_GROUPS` array (comma-joined). -/
def possibleGroupsText : String := String.intercalate "," POSSIBLE_GROUPS

/-- The template literal
`'${group}' is not a viable group, please select one of: ${POSSIBLE_GROUPS}`. -/
def groupErrMsg (group : String) : String :=
  squote ++ group ++ squote ++ " is not a viable group, please select one of: "
    ++ possibleGroupsText

/-- The canister's stable state: the two `StableBTreeMap`s. -/
structure State where
  users : SMap Principal User
  workouts : SMap String WorkoutSession
deriving DecidableEq, Repr

def initState : State := ⟨SMap.empty, SMap.empty⟩

/-- `createUser` (caller and time supplied by the environment). -/
def createUser (s : State) (caller : Principal) (name : String) (t : Nat) :
    Res User × State :=
  if s.users.containsKey caller then
    (.Err (.UserDoesExist caller), s)
  else if isInvalidString name then
    (.Err (.InvalidPayload name), s)
  else
    let user : User := { id := caller, createdAt := t, sessionIds := [], name := name }
    (.Ok user, { s with users := s.users.insert user.id user })

/-- `getUserById` (query; no state change). -/
def getUserById (s : State) (id : Principal) : Res User :=
  match s.users.get id with
  | none => .Err (.UserDoesNotExist id)
  | some user => .Ok user

/-- `getAllUsers` (query). -/
def getAllUsers (s : State) : List User := s.users.values

/-- `deleteUser`: cascading removal of the user's sessions, then of the user. -/
def deleteUser (s : State) (caller : Principal) : Res User × State :=
  match s.users.get caller with
  | none => (.Err (.UserDoesNotExist caller), s)
  | some user =>
      (.Ok user,
        { users := s.users.remove user.id,
          workouts := s.workouts.removeAll user.sessionIds })

/-- `startWorkout` (the generated uuid and the time are environment inputs). -/
def startWorkout (s : State) (caller : Principal) (group : String)
    (newId : String) (t : Nat) : Res WorkoutSession × State :=
  match s.users.get caller with
  | none => (.Err (.UserDoesNotExist caller), s)
  | some user =>
      if isInvalidString group then
        (.Err (.InvalidPayload group), s)
      else if POSSIBLE_GROUPS.contains (jsToLower group) then
        let workout : WorkoutSession :=
          { id := newId, userId := caller, startedAt := t,
            finishedAt := 0, calories := 0, muscleGroup := group }
        (.Ok workout,
          { users := s.users.insert user.id
              { user with sessionIds := user.sessionIds ++ [workout.id] },
            workouts := s.workouts.insert workout.id workout })
      else
        (.Err (.MuscleGroupDoesNotExist (groupErrMsg group)), s)

/-- `endWorkout` (caller and time supplied by the environment). -/
def endWorkout (s : State) (caller : Principal) (id : String) (calories : Nat)
    (t : Nat) : Res WorkoutSession × State :=
  if s.users.containsKey caller = false then
    (.Err (.UserDoesNotExist caller), s)
  else
    match s.workouts.get id with
    | none => (.Err (.WorkoutDoesNotExist id), s)
    | some workout =>
        if workout.userId ≠ caller then
          (.Err (.AuthenticationFail caller), s)
        else
          let updated : WorkoutSession := { workout with finishedAt := t, calories := calories }
          (.Ok updated, { s with workouts := s.workouts.insert workout.id updated })

/-- `listWorkouts` (query). -/
def listWorkouts (s : State) : List WorkoutSession := s.workouts.values

example :
    (startWorkout (createUser initState "p" "alice" 1).2 "p" "Legs" "w1" 2).1 =
      .Ok { id := "w1", userId := "p", startedAt := 2, finishedAt := 0,
            calories := 0, muscleGroup := "Legs" } := by decide

example :
    (startWorkout (createUser initState "p" "alice" 1).2 "p" "shoulders" "w1" 2).1 =
      .Err (.MuscleGroupDoesNotExist (groupErrMsg "shoulders")) := by decide

/-! The transition system: one step per state-mutating canister method, with
caller, payload, clock and generated uuid supplied by the environment.  The
query methods (`getUserById`, `getAllUsers`, `listWorkouts`) do not change the
state.  Per the claims' assumption that the uuid generator never collides, the
`start` step carries a freshness hypothesis for the generated id. -/

inductive Step : State → State → Prop where
  | create (s : State) (caller : Principal) (name : String) (t : Nat) :
      Step s (createUser s caller name t).2
  | delete (s : State) (caller : Principal) :
      Step s (deleteUser s caller).2
  | start (s : State) (caller : Principal) (group newId : String) (t : Nat)
      (hfresh : s.workouts.get newId = none) :
      Step s (startWorkout s caller group newId t).2
  | finish (s : State) (caller : Principal) (id : String) (calories t : Nat) :
      Step s (endWorkout s caller id calories t).2

/-- States reachable from the empty initial state. -/
def Reachable (s : State) : Prop := Relation.ReflTransGen Step initState s

/-- Every stored User sits under its own id as key. -/
def InvUsersKey (s : State) : Prop := ∀ p ∈ s.users.entries, p.2.id = p.1

/-- Every stored WorkoutSession sits under its own id as key. -/
def InvWorkoutsKey (s : State) : Prop := ∀ p ∈ s.workouts.entries, p.2.id = p.1

/-- Referential integrity: every session id listed by a user denotes a stored
session owned by that user. -/
def InvRef (s : State) : Prop :=
  ∀ p ∈ s.users.entries, ∀ sid ∈ p.2.sessionIds,
    ∃ w, s.workouts.get sid = some w ∧ w.userId = p.2.id

def StoreInv (s : State) : Prop := InvUsersKey s ∧ InvWorkoutsKey s ∧ InvRef s

theorem inv_init : StoreInv initState := by
  refine ⟨?_, ?_, ?_⟩ <;> intro p hp <;> simp [initState, SMap.empty] at hp

theorem inv_createUser (s : State) (caller : Principal) (name : String) (t : Nat)
    (h : StoreInv s) : StoreInv (createUser s caller name t).2 := by
  obtain ⟨hUK, hWK, hRef⟩ := h
  unfold createUser
  by_cases hc : s.users.containsKey caller
  · rw [if_pos hc]
    exact ⟨hUK, hWK, hRef⟩
  · rw [if_neg hc]
    by_cases hn : isInvalidString name
    · simp only [hn, if_true]
      exact ⟨hUK, hWK, hRef⟩
    · simp only [hn, Bool.false_eq_true, if_false]
      refine ⟨?_, hWK, ?_⟩
      · intro p hp
        rcases SMap.mem_entries_insert _ _ _ _ hp with hnew | hold
        · rw [hnew]
        · exact hUK p hold
      · intro p hp sid hsid
        rcases SMap.mem_entries_insert _ _ _ _ hp with hnew | hold
        · rw [hnew] at hsid
          simp at hsid
        · exact hRef p hold sid hsid

theorem inv_deleteUser (s : State) (caller : Principal)
    (h : StoreInv s) : StoreInv (deleteUser s caller).2 := by
  obtain ⟨hUK, hWK, hRef⟩ := h
  unfold deleteUser
  cases hu : s.users.get caller with
  | none => exact ⟨hUK, hWK, hRef⟩
  | some user =>
    have huser_mem : (caller, user) ∈ s.users.entries := SMap.get_mem _ _ _ hu
    refine ⟨?_, ?_, ?_⟩
    · intro p hp
      exact hUK p (SMap.mem_entries_remove _ _ _ hp).1
    · intro p hp
      exact hWK p (SMap.mem_entries_removeAll _ _ _ hp).1
    · intro p hp sid hsid
      obtain ⟨hpold, hpne⟩ := SMap.mem_entries_remove _ _ _ hp
      obtain ⟨w, hw, hwid⟩ := hRef p hpold sid hsid
      have hnotin : sid ∉ user.sessionIds := by
        intro hin
        obtain ⟨w2, hw2, hw2id⟩ := hRef (caller, user) huser_mem sid hin
        have hww : w = w2 := Option.some.inj (hw.symm.trans hw2)
        have : p.2.id = user.id := by
          rw [← hwid, hww, hw2id]
        have hp1 : p.1 = user.id := by rw [← hUK p hpold, this]
        exact hpne hp1
      refine ⟨w, ?_, hwid⟩
      show (s.workouts.removeAll user.sessionIds).get sid = some w
      rw [SMap.get_removeAll, if_neg hnotin]
      exact hw

theorem inv_startWorkout (s : State) (caller : Principal) (group newId : String)
    (t : Nat) (hfresh : s.workouts.get newId = none)
    (h : StoreInv s) : StoreInv (startWorkout s caller group newId t).2 := by
  obtain ⟨hUK, hWK, hRef⟩ := h
  unfold startWorkout
  cases hu : s.users.get caller with
  | none => exact ⟨hUK, hWK, hRef⟩
  | some user =>
    have huser_mem : (caller, user) ∈ s.users.entries := SMap.get_mem _ _ _ hu
    have huid : user.id = caller := hUK (caller, user) huser_mem
    by_cases hg : isInvalidString group
    · simp only [hg, if_true]
      exact ⟨hUK, hWK, hRef⟩
    · simp only [hg, Bool.false_eq_true, if_false]
      by_cases hmem : POSSIBLE_GROUPS.contains (jsToLower group)
      · simp only [hmem, if_true]
        refine ⟨?_, ?_, ?_⟩
        · intro p hp
          rcases SMap.mem_entries_insert _ _ _ _ hp with hnew | hold
          · rw [hnew]
          · exact hUK p hold
        · intro p hp
          rcases SMap.mem_entries_insert _ _ _ _ hp with hnew | hold
          · rw [hnew]
          · exact hWK p hold
        · intro p hp sid hsid
          rcases SMap.mem_entries_insert _ _ _ _ hp with hnew | hold
          · rw [hnew] at hsid
            simp only at hsid
            rcases List.mem_append.mp hsid with hsold | hslast
            · obtain ⟨w, hw, hwid⟩ := hRef (caller, user) huser_mem sid hsold
              have hne : sid ≠ newId := by
                intro heq
                rw [heq, hfresh] at hw
                exact Option.noConfusion hw
              refine ⟨w, ?_, ?_⟩
              · show (s.workouts.insert newId _).get sid = some w
                rw [SMap.get_insert_ne _ _ _ _ hne]
                exact hw
              · rw [hnew]
                simpa using hwid
            · have hsid_eq : sid = newId := by simpa using hslast
              subst hsid_eq
              refine ⟨_, SMap.get_insert_self _ _ _, ?_⟩
              rw [hnew]
              simp [huid]
          · obtain ⟨w, hw, hwid⟩ := hRef p hold sid hsid
            have hne : sid ≠ newId := by
              intro heq
              rw [heq, hfresh] at hw
              exact Option.noConfusion hw
            refine ⟨w, ?_, hwid⟩
            show (s.workouts.insert newId _).get sid = some w
            rw [SMap.get_insert_ne _ _ _ _ hne]
            exact hw
      · simp only [hmem, Bool.false_eq_true, if_false]
        exact ⟨hUK, hWK, hRef⟩

theorem inv_endWorkout (s : State) (caller : Principal) (id : String)
    (calories t : Nat) (h : StoreInv s) : StoreInv (endWorkout s caller id calories t).2 := by
  obtain ⟨hUK, hWK, hRef⟩ := h
  unfold endWorkout
  split
  · exact ⟨hUK, hWK, hRef⟩
  · split
    · exact ⟨hUK, hWK, hRef⟩
    · next workout hw =>
      have hwmem : (id, workout) ∈ s.workouts.entries := SMap.get_mem _ _ _ hw
      have hwid : workout.id = id := hWK (id, workout) hwmem
      split
      · exact ⟨hUK, hWK, hRef⟩
      · refine ⟨hUK, ?_, ?_⟩
        · intro p hp
          rcases SMap.mem_entries_insert _ _ _ _ hp with hnew | hold
          · rw [hnew, hwid]
          · exact hWK p hold
        · intro p hp sid hsid
          obtain ⟨w, hwget, hwuid⟩ := hRef p hp sid hsid
          by_cases hsid_eq : sid = workout.id
          · refine ⟨{ workout with finishedAt := t, calories := calories }, ?_, ?_⟩
            · show (s.workouts.insert workout.id _).get sid = _
              rw [hsid_eq]
              exact SMap.get_insert_self _ _ _
            have hwworkout : w = workout := by
              rw [hsid_eq, hwid] at hwget
              exact Option.some.inj (hwget.symm.trans hw)
            simp only
            rw [← hwuid, hwworkout]
          · refine ⟨w, ?_, hwuid⟩
            show (s.workouts.insert workout.id _).get sid = some w
            rw [SMap.get_insert_ne _ _ _ _ hsid_eq]
            exact hwget

theorem inv_step {s s2 : State} (hstep : Step s s2) (h : StoreInv s) : StoreInv s2 := by
  cases hstep with
  | create caller name t => exact inv_createUser s caller name t h
  | delete caller => exact inv_deleteUser s caller h
  | start caller group newId t hfresh => exact inv_startWorkout s caller group newId t hfresh h
  | finish caller id calories t => exact inv_endWorkout s caller id calories t h

theorem inv_reachable {s : State} (h : Reachable s) : StoreInv s := by
  induction h with
  | refl => exact inv_init
  | tail _ hstep ih => exact inv_step hstep ih

/-! Concrete scenario states used by the witnesses and counterexamples:
caller "p" creates a user, starts workout "w1" on group "legs", completes it
with 100 calories at time 3, and completes it again at time 7. -/

def stA : State := (createUser initState "p" "alice" 1).2

def stB : State := (startWorkout stA "p" "legs" "w1" 2).2

def stC : State := (endWorkout stB "p" "w1" 100 3).2

def stD : State := (endWorkout stC "p" "w1" 200 7).2

/-- The user record of "p" right after creation. -/
def userA : User := { id := "p", createdAt := 1, sessionIds := [], name := "alice" }

/-- The user record of "p" after starting workout "w1". -/
def userB : User := { id := "p", createdAt := 1, sessionIds := ["w1"], name := "alice" }

theorem reach_stA : Reachable stA :=
  Relation.ReflTransGen.single (Step.create initState "p" "alice" 1)

theorem reach_stB : Reachable stB :=
  reach_stA.tail (Step.start stA "p" "legs" "w1" 2 (by decide))

theorem reach_stC : Reachable stC :=
  reach_stB.tail (Step.finish stB "p" "w1" 100 3)

/-- C1: in every state reachable by the canister's operations (with a
collision-free id generator), every id in a stored User's `sessionIds` denotes
a WorkoutSession stored in the workout table whose `userId` equals that User's
`id`. -/
theorem c1_referential_integrity (s : State) (hr : Reachable s)
    (k : Principal) (u : User) (hu : s.users.get k = some u)
    (sid : String) (hsid : sid ∈ u.sessionIds) :
    ∃ w, s.workouts.get sid = some w ∧ w.userId = u.id := by
  obtain ⟨hUK, hWK, hRef⟩ := inv_reachable hr
  exact hRef (k, u) (SMap.get_mem _ _ _ hu) sid hsid

theorem c1_witness :
    ∃ w, stB.workouts.get "w1" = some w ∧ w.userId = userB.id :=
  c1_referential_integrity stB reach_stB "p" userB (by decide) "w1" (by decide)

/-- C7: whenever `createUser` succeeds, an immediately following `getUserById`
with the same caller returns a User equal to the one `createUser` returned,
with empty `sessionIds`. -/
theorem c7_create_then_read (s : State) (caller : Principal) (name : String)
    (t : Nat) (u : User) (hok : (createUser s caller name t).1 = .Ok u) :
    getUserById (createUser s caller name t).2 caller = .Ok u ∧
      u.sessionIds = [] := by
  unfold createUser at hok ⊢
  by_cases hc : s.users.containsKey caller
  · rw [if_pos hc] at hok
    exact absurd hok (by simp)
  · rw [if_neg hc] at hok ⊢
    by_cases hn : isInvalidString name
    · simp only [hn, if_true] at hok
      exact absurd hok (by simp)
    · simp only [hn, Bool.false_eq_true, if_false] at hok ⊢
      have hu : u = { id := caller, createdAt := t, sessionIds := [], name := name } := by
        simpa using hok.symm
      subst hu
      refine ⟨?_, rfl⟩
      unfold getUserById
      simp only
      rw [show (SMap.insert s.users caller
          { id := caller, createdAt := t, sessionIds := [], name := name }).get caller =
          some { id := caller, createdAt := t, sessionIds := [], name := name } from
        SMap.get_insert_self _ _ _]

theorem c7_witness :
    getUserById (createUser initState "p" "alice" 1).2 "p" = .Ok userA ∧
      userA.sessionIds = [] :=
  c7_create_then_read initState "p" "alice" 1 userA (by decide)

/-- C10: when `startWorkout` succeeds, the returned and stored session's
`muscleGroup` is the supplied group string verbatim (lower-casing is used only
for validation). -/
theorem c10_muscleGroup_verbatim (s : State) (caller : Principal) (u : User)
    (group newId : String) (t : Nat)
    (hu : s.users.get caller = some u)
    (hblank : isInvalidString group = false)
    (hgrp : POSSIBLE_GROUPS.contains (jsToLower group) = true) :
    ∃ wk, (startWorkout s caller group newId t).1 = .Ok wk ∧
      wk.muscleGroup = group ∧
      (startWorkout s caller group newId t).2.workouts.get newId = some wk := by
  refine ⟨{ id := newId, userId := caller, startedAt := t, finishedAt := 0,
            calories := 0, muscleGroup := group }, ?_, rfl, ?_⟩ <;>
    simp only [startWorkout, hu, hblank, Bool.false_eq_true, if_false, hgrp, if_true]
  exact SMap.get_insert_self _ _ _

theorem c10_witness :
    (∃ wk, (startWorkout stA "p" "LEGS" "w9" 2).1 = .Ok wk ∧
        wk.muscleGroup = "LEGS" ∧
        (startWorkout stA "p" "LEGS" "w9" 2).2.workouts.get "w9" = some wk) ∧
      "LEGS" ∉ POSSIBLE_GROUPS :=
  ⟨c10_muscleGroup_verbatim stA "p" userA "LEGS" "w9" 2 (by decide) (by decide)
      (by decide),
    by decide⟩

/-- Modelled from the spec: the recognized muscle-group set as the spec spells
it — `{shoulders, back, chest, legs, cardio}`.  The source's
`POSSIBLE_GROUPS` spells the first entry "shouders". -/
def claimedGroups : List String := ["shoulders", "back", "chest", "legs", "cardio"]

/-- C2 counterexample: "shoulders" (lower-cased) is in the claim's recognized
set, the caller has a user record and the group is non-blank, yet
`startWorkout` rejects it with `MuscleGroupDoesNotExist` — the code's set
spells the entry "shouders". -/
theorem c2_counterexample :
    jsToLower "shoulders" ∈ claimedGroups ∧
      stA.users.containsKey "p" = true ∧
      isInvalidString "shoulders" = false ∧
      (startWorkout stA "p" "shoulders" "w1" 2).1 =
        .Err (.MuscleGroupDoesNotExist (groupErrMsg "shoulders")) := by
  refine ⟨by decide, by decide, by decide, by decide⟩

/-- C2 (amended: the recognized set is the source's `POSSIBLE_GROUPS`, whose
first entry is spelled "shouders"): for a caller with a user record and a
non-blank group, `startWorkout` succeeds iff the lower-cased group is in
`POSSIBLE_GROUPS`; otherwise it fails with `MuscleGroupDoesNotExist` whose
text payload embeds the rejected value and the recognized set. -/
theorem c2_muscle_group_gate (s : State) (caller : Principal) (u : User)
    (group newId : String) (t : Nat)
    (hu : s.users.get caller = some u) (hblank : isInvalidString group = false) :
    ((∃ wk, (startWorkout s caller group newId t).1 = .Ok wk) ↔
        jsToLower group ∈ POSSIBLE_GROUPS) ∧
      (jsToLower group ∉ POSSIBLE_GROUPS →
        (startWorkout s caller group newId t).1 =
          .Err (.MuscleGroupDoesNotExist (groupErrMsg group))) ∧
      (∃ x y, groupErrMsg group = x ++ group ++ y) ∧
      (∃ x y, groupErrMsg group = x ++ possibleGroupsText ++ y) := by
  refine ⟨?_, ?_, ?_, ?_⟩
  · by_cases hgrp : POSSIBLE_GROUPS.contains (jsToLower group) = true
    · simp only [startWorkout, hu, hblank, Bool.false_eq_true, if_false, hgrp,
        if_true]
      constructor
      · intro _
        simpa using hgrp
      · intro _
        exact ⟨_, rfl⟩
    · simp only [startWorkout, hu, hblank, Bool.false_eq_true, if_false, hgrp]
      constructor
      · rintro ⟨wk, hwk⟩
        exact absurd hwk (by simp)
      · intro hmem
        exact absurd (by simpa using hmem) hgrp
  · intro hgrp
    have hgrp' : POSSIBLE_GROUPS.contains (jsToLower group) = false := by
      simpa using hgrp
    simp [startWorkout, hu, hblank, hgrp', hgrp]
  · refine ⟨squote, squote ++ " is not a viable group, please select one of: "
      ++ possibleGroupsText, ?_⟩
    unfold groupErrMsg
    simp only [String.append_assoc]
  · refine ⟨squote ++ group ++ squote
      ++ " is not a viable group, please select one of: ", "", ?_⟩
    unfold groupErrMsg
    simp only [String.append_assoc, String.append_empty]

theorem c2_witness :
    ((∃ wk, (startWorkout stA "p" "yoga" "w1" 2).1 = .Ok wk) ↔
        jsToLower "yoga" ∈ POSSIBLE_GROUPS) ∧
      (jsToLower "yoga" ∉ POSSIBLE_GROUPS →
        (startWorkout stA "p" "yoga" "w1" 2).1 =
          .Err (.MuscleGroupDoesNotExist (groupErrMsg "yoga"))) ∧
      (∃ x y, groupErrMsg "yoga" = x ++ "yoga" ++ y) ∧
      (∃ x y, groupErrMsg "yoga" = x ++ possibleGroupsText ++ y) :=
  c2_muscle_group_gate stA "p" userA "yoga" "w1" 2 (by decide) (by decide)

/-- Modelled from the spec: the spec's name for the duplicate-creation error
(`UserAlreadyExists`); the source's variant is tagged `UserDoesExist`. -/
def specDuplicateCreateTag : String := "UserAlreadyExists"

/-- C8 counterexample: when the caller already owns a user record,
`createUser` fails with the variant tagged `UserDoesExist`, not with one
tagged `UserAlreadyExists` as the claim names it. -/
theorem c8_counterexample :
    (createUser stA "p" "bob" 5).1 = .Err (.UserDoesExist "p") ∧
      errTag (.UserDoesExist "p") = "UserDoesExist" ∧
      errTag (.UserDoesExist "p") ≠ specDuplicateCreateTag := by
  refine ⟨by decide, by decide, by decide⟩

/-- C8 (amended: the duplicate-creation error variant is the source's
`UserDoesExist`, not `UserAlreadyExists`): `createUser` fails with
`UserDoesExist` when the caller already owns a record (taking precedence over
payload validation), fails with `InvalidPayload` on a blank name, and
otherwise persists and returns a fresh User with the caller's identity, empty
`sessionIds` and the current timestamp; failures leave the state unchanged. -/
theorem c8_createUser_errors (s : State) (caller : Principal) (name : String)
    (t : Nat) :
    (s.users.containsKey caller = true →
      (createUser s caller name t).1 = .Err (.UserDoesExist caller) ∧
      (createUser s caller name t).2 = s) ∧
    (s.users.containsKey caller = false → isInvalidString name = true →
      (createUser s caller name t).1 = .Err (.InvalidPayload name) ∧
      (createUser s caller name t).2 = s) ∧
    (s.users.containsKey caller = false → isInvalidString name = false →
      (createUser s caller name t).1 =
        .Ok { id := caller, createdAt := t, sessionIds := [], name := name } ∧
      (createUser s caller name t).2.users.get caller =
        some { id := caller, createdAt := t, sessionIds := [], name := name } ∧
      (createUser s caller name t).2.workouts = s.workouts) := by
  refine ⟨?_, ?_, ?_⟩
  · intro hc
    simp [createUser, hc]
  · intro hc hn
    simp [createUser, hc, hn]
  · intro hc hn
    simp only [createUser, hc, Bool.false_eq_true, if_false, hn]
    exact ⟨trivial, SMap.get_insert_self _ _ _, trivial⟩

theorem c8_witness :
    (createUser stA "p" "bob" 5).1 = .Err (.UserDoesExist "p") ∧
      (createUser stA "p" "bob" 5).2 = stA :=
  (c8_createUser_errors stA "p" "bob" 5).1 (by decide)

/-- The session "w1" as stored right after `startWorkout`. -/
def sessB : WorkoutSession :=
  { id := "w1", userId := "p", startedAt := 2, finishedAt := 0, calories := 0,
    muscleGroup := "legs" }

/-- C3 counterexample: in the reachable state `stB`, the workout "w1" exists
and its `userId` ("p") differs from the caller "q", so the claim predicts an
`AuthenticationFail` failure; but `endWorkout` first checks that the caller
has a user record and fails with `UserDoesNotExist` — a third failure kind the
claim excludes. -/
theorem c3_counterexample :
    Reachable stB ∧
      stB.workouts.get "w1" = some sessB ∧
      sessB.userId ≠ "q" ∧
      (endWorkout stB "q" "w1" 10 5).1 = .Err (.UserDoesNotExist "q") ∧
      (endWorkout stB "q" "w1" 10 5).1 ≠ .Err (.AuthenticationFail "q") :=
  ⟨reach_stB, by decide, by decide, by decide, by decide⟩

/-- C3 (amended: `endWorkout` additionally fails with `UserDoesNotExist`,
checked first, when the caller has no user record): for a caller with a user
record, it fails exactly when the id is absent (`WorkoutDoesNotExist`) or the
stored session's `userId` differs from the caller (`AuthenticationFail`), and
succeeds in every other case. -/
theorem c3_endWorkout_failures (s : State) (caller : Principal) (id : String)
    (calories t : Nat) :
    (s.users.containsKey caller = false →
      (endWorkout s caller id calories t).1 = .Err (.UserDoesNotExist caller)) ∧
    (s.users.containsKey caller = true →
      (s.workouts.get id = none →
        (endWorkout s caller id calories t).1 = .Err (.WorkoutDoesNotExist id)) ∧
      (∀ w, s.workouts.get id = some w → w.userId ≠ caller →
        (endWorkout s caller id calories t).1 = .Err (.AuthenticationFail caller)) ∧
      (∀ w, s.workouts.get id = some w → w.userId = caller →
        (endWorkout s caller id calories t).1 =
          .Ok { w with finishedAt := t, calories := calories })) := by
  constructor
  · intro hc
    simp [endWorkout, hc]
  · intro hc
    refine ⟨?_, ?_, ?_⟩
    · intro hw
      simp [endWorkout, hc, hw]
    · intro w hw hauth
      simp [endWorkout, hc, hw, hauth]
    · intro w hw hauth
      simp [endWorkout, hc, hw, hauth]

theorem c3_witness :
    (endWorkout stB "q" "w1" 10 6).1 = .Err (.UserDoesNotExist "q") :=
  (c3_endWorkout_failures stB "q" "w1" 10 6).1 (by decide)

/-- C5: for a caller with a user record, `deleteUser` removes every session
listed in that user's `sessionIds`, removes the User record, and returns the
pre-deletion snapshot; afterwards `getUserById` fails with `UserDoesNotExist`
and `listWorkouts` contains none of those session ids.  Without a user record
it fails with `UserDoesNotExist`. -/
theorem c5_deleteUser_cascade (s : State) (caller : Principal)
    (hr : Reachable s) :
    (∀ u, s.users.get caller = some u →
      (deleteUser s caller).1 = .Ok u ∧
      (deleteUser s caller).2.users.get caller = none ∧
      getUserById (deleteUser s caller).2 caller = .Err (.UserDoesNotExist caller) ∧
      (∀ sid ∈ u.sessionIds, (deleteUser s caller).2.workouts.get sid = none) ∧
      (∀ w ∈ listWorkouts (deleteUser s caller).2, w.id ∉ u.sessionIds)) ∧
    (s.users.get caller = none →
      (deleteUser s caller).1 = .Err (.UserDoesNotExist caller)) := by
  obtain ⟨hUK, hWK, hRef⟩ := inv_reachable hr
  constructor
  · intro u hu
    have huid : u.id = caller := hUK (caller, u) (SMap.get_mem _ _ _ hu)
    have husers : (deleteUser s caller).2.users = s.users.remove u.id := by
      simp [deleteUser, hu]
    have hworkouts :
        (deleteUser s caller).2.workouts = s.workouts.removeAll u.sessionIds := by
      simp [deleteUser, hu]
    have hgone : (deleteUser s caller).2.users.get caller = none := by
      rw [husers, ← huid]
      exact SMap.get_remove_self _ _
    refine ⟨by simp [deleteUser, hu], hgone, ?_, ?_, ?_⟩
    · unfold getUserById
      rw [hgone]
    · intro sid hsid
      rw [hworkouts, SMap.get_removeAll, if_pos hsid]
    · intro w hwmem hwid
      rw [show listWorkouts (deleteUser s caller).2 =
            (s.workouts.removeAll u.sessionIds).values by rw [listWorkouts, hworkouts]]
        at hwmem
      obtain ⟨p, hp, hpw⟩ := (SMap.mem_values _ _).mp hwmem
      obtain ⟨hpold, hpnot⟩ := SMap.mem_entries_removeAll _ _ _ hp
      have : w.id = p.1 := by rw [← hpw]; exact hWK p hpold
      rw [this] at hwid
      exact hpnot hwid
  · intro hu
    simp [deleteUser, hu]

theorem c5_witness :
    ((deleteUser stB "p").1 = .Ok userB ∧
      (deleteUser stB "p").2.users.get "p" = none ∧
      getUserById (deleteUser stB "p").2 "p" = .Err (.UserDoesNotExist "p") ∧
      (∀ sid ∈ userB.sessionIds, (deleteUser stB "p").2.workouts.get sid = none) ∧
      (∀ w ∈ listWorkouts (deleteUser stB "p").2, w.id ∉ userB.sessionIds)) :=
  (c5_deleteUser_cascade stB "p" reach_stB).1 userB (by decide)

/-- C9: a successful `deleteUser` leaves every other user's record unchanged
and removes only the workouts listed in the deleted user's `sessionIds`. -/
theorem c9_deleteUser_frame (s : State) (caller : Principal) (u : User)
    (hr : Reachable s) (hu : s.users.get caller = some u) :
    (∀ q, q ≠ caller → (deleteUser s caller).2.users.get q = s.users.get q) ∧
    (∀ wid, wid ∉ u.sessionIds →
      (deleteUser s caller).2.workouts.get wid = s.workouts.get wid) := by
  obtain ⟨hUK, _, _⟩ := inv_reachable hr
  have huid : u.id = caller := hUK (caller, u) (SMap.get_mem _ _ _ hu)
  have husers : (deleteUser s caller).2.users = s.users.remove u.id := by
    simp [deleteUser, hu]
  have hworkouts :
      (deleteUser s caller).2.workouts = s.workouts.removeAll u.sessionIds := by
    simp [deleteUser, hu]
  constructor
  · intro q hq
    rw [husers]
    exact SMap.get_remove_ne _ _ _ (by rw [huid]; exact hq)
  · intro wid hwid
    rw [hworkouts, SMap.get_removeAll, if_neg hwid]

/-! A second caller "q" with their own workout "w2", for the frame witness. -/

def stQ1 : State := (createUser stA "q" "quinn" 4).2

def stQ2 : State := (startWorkout stQ1 "q" "cardio" "w2" 5).2

theorem reach_stQ2 : Reachable stQ2 :=
  ((reach_stA.tail (Step.create stA "q" "quinn" 4)).tail
    (Step.start stQ1 "q" "cardio" "w2" 5 (by decide)))

theorem c9_witness :
    (deleteUser stQ2 "p").2.users.get "q" = stQ2.users.get "q" ∧
      (deleteUser stQ2 "p").2.workouts.get "w2" = stQ2.workouts.get "w2" :=
  ⟨(c9_deleteUser_frame stQ2 "p" userA reach_stQ2 (by decide)).1 "q" (by decide),
    (c9_deleteUser_frame stQ2 "p" userA reach_stQ2 (by decide)).2 "w2" (by decide)⟩

/-- C6: a successful `startWorkout` creates a session with the fresh id, the
caller as owner, `startedAt` = now and zero `finishedAt`/`calories`, stores
it, appends its id exactly once to the end of the caller's `sessionIds`, and
returns it; afterwards `getUserById` shows the appended list and
`listWorkouts` contains the new, unfinished session. -/
theorem c6_startWorkout_success (s : State) (caller : Principal) (u : User)
    (group newId : String) (t : Nat) (hr : Reachable s)
    (hu : s.users.get caller = some u)
    (hblank : isInvalidString group = false)
    (hgrp : POSSIBLE_GROUPS.contains (jsToLower group) = true)
    (hfresh : s.workouts.get newId = none) :
    (startWorkout s caller group newId t).1 =
      .Ok { id := newId, userId := caller, startedAt := t, finishedAt := 0,
            calories := 0, muscleGroup := group } ∧
    (startWorkout s caller group newId t).2.workouts.get newId =
      some { id := newId, userId := caller, startedAt := t, finishedAt := 0,
             calories := 0, muscleGroup := group } ∧
    (startWorkout s caller group newId t).2.users.get caller =
      some { u with sessionIds := u.sessionIds ++ [newId] } ∧
    getUserById (startWorkout s caller group newId t).2 caller =
      .Ok { u with sessionIds := u.sessionIds ++ [newId] } ∧
    (u.sessionIds ++ [newId]).count newId = 1 ∧
    { id := newId, userId := caller, startedAt := t, finishedAt := 0,
      calories := 0, muscleGroup := group } ∈
        listWorkouts (startWorkout s caller group newId t).2 ∧
    ({ id := newId, userId := caller, startedAt := t, finishedAt := 0,
       calories := 0, muscleGroup := group } : WorkoutSession).finishedAt = 0 := by
  obtain ⟨hUK, hWK, hRef⟩ := inv_reachable hr
  have huid : u.id = caller := hUK (caller, u) (SMap.get_mem _ _ _ hu)
  have hnotin : newId ∉ u.sessionIds := by
    intro hin
    obtain ⟨w, hw, _⟩ := hRef (caller, u) (SMap.get_mem _ _ _ hu) newId hin
    rw [hfresh] at hw
    exact Option.noConfusion hw
  have husers : (startWorkout s caller group newId t).2.users =
      s.users.insert u.id { u with sessionIds := u.sessionIds ++ [newId] } := by
    simp only [startWorkout, hu, hblank, Bool.false_eq_true, if_false, hgrp, if_true]
  have hworkouts : (startWorkout s caller group newId t).2.workouts =
      s.workouts.insert newId
        { id := newId, userId := caller, startedAt := t, finishedAt := 0,
          calories := 0, muscleGroup := group } := by
    simp only [startWorkout, hu, hblank, Bool.false_eq_true, if_false, hgrp, if_true]
  have husersget : (startWorkout s caller group newId t).2.users.get caller =
      some { u with sessionIds := u.sessionIds ++ [newId] } := by
    rw [husers, ← huid]
    exact SMap.get_insert_self _ _ _
  refine ⟨by simp only [startWorkout, hu, hblank, Bool.false_eq_true, if_false, hgrp, if_true], ?_, husersget, ?_, ?_, ?_, rfl⟩
  · rw [hworkouts]
    exact SMap.get_insert_self _ _ _
  · unfold getUserById
    rw [husersget]
  · rw [List.count_append, List.count_eq_zero.mpr hnotin]
    simp
  · rw [show listWorkouts (startWorkout s caller group newId t).2 =
        (s.workouts.insert newId
          { id := newId, userId := caller, startedAt := t, finishedAt := 0,
            calories := 0, muscleGroup := group }).values by
      rw [listWorkouts, hworkouts]]
    exact SMap.self_mem_values_insert _ _ _

theorem c6_witness :
    (startWorkout stA "p" "Legs" "w1" 2).1 =
      .Ok { id := "w1", userId := "p", startedAt := 2, finishedAt := 0,
            calories := 0, muscleGroup := "Legs" } ∧
    (startWorkout stA "p" "Legs" "w1" 2).2.workouts.get "w1" =
      some { id := "w1", userId := "p", startedAt := 2, finishedAt := 0,
             calories := 0, muscleGroup := "Legs" } ∧
    (startWorkout stA "p" "Legs" "w1" 2).2.users.get "p" =
      some { userA with sessionIds := userA.sessionIds ++ ["w1"] } ∧
    getUserById (startWorkout stA "p" "Legs" "w1" 2).2 "p" =
      .Ok { userA with sessionIds := userA.sessionIds ++ ["w1"] } ∧
    (userA.sessionIds ++ ["w1"]).count "w1" = 1 ∧
    { id := "w1", userId := "p", startedAt := 2, finishedAt := 0,
      calories := 0, muscleGroup := "Legs" } ∈
        listWorkouts (startWorkout stA "p" "Legs" "w1" 2).2 ∧
    ({ id := "w1", userId := "p", startedAt := 2, finishedAt := 0,
       calories := 0, muscleGroup := "Legs" } : WorkoutSession).finishedAt = 0 :=
  c6_startWorkout_success stA "p" userA "Legs" "w1" 2 reach_stA (by decide)
    (by decide) (by decide) (by decide)

/-- The session "w1" after its first completion (calories 100 at time 3). -/
def sessC : WorkoutSession :=
  { id := "w1", userId := "p", startedAt := 2, finishedAt := 3, calories := 100,
    muscleGroup := "legs" }

/-- The session "w1" after being completed a second time (calories 200 at
time 7). -/
def sessD : WorkoutSession :=
  { id := "w1", userId := "p", startedAt := 2, finishedAt := 7, calories := 200,
    muscleGroup := "legs" }

/-- C4 counterexample: from the reachable state `stC`, where session "w1" is
already completed (`finishedAt` = 3 ≠ 0), a further `endWorkout` step modifies
both `finishedAt` and `calories` — the code never guards against
re-completion. -/
theorem c4_counterexample :
    Reachable stC ∧
      stC.workouts.get "w1" = some sessC ∧
      sessC.finishedAt ≠ 0 ∧
      Step stC stD ∧
      stD.workouts.get "w1" = some sessD ∧
      sessD.finishedAt ≠ sessC.finishedAt ∧
      sessD.calories ≠ sessC.calories :=
  ⟨reach_stC, by decide, by decide, Step.finish stC "p" "w1" 200 7, by decide,
    by decide, by decide⟩

/-- C4 (amended: the code does not prevent re-completing a session): across
any single step from a reachable state, the `finishedAt`/`calories` fields of
a stored session change only through a successful `endWorkout` call by the
session's owner, which overwrites them with the call's time and supplied
calories — including on a session whose `finishedAt` is already non-zero. -/
theorem c4_completion_updates (s s2 : State) (hr : Reachable s)
    (hstep : Step s s2) (id : String) (w w2 : WorkoutSession)
    (hw : s.workouts.get id = some w) (hw2 : s2.workouts.get id = some w2)
    (hchanged : w2.finishedAt ≠ w.finishedAt ∨ w2.calories ≠ w.calories) :
    ∃ calories t,
      s2 = (endWorkout s w.userId id calories t).2 ∧
      (endWorkout s w.userId id calories t).1 = .Ok w2 ∧
      w2 = { w with finishedAt := t, calories := calories } := by
  obtain ⟨hUK, hWK, hRef⟩ := inv_reachable hr
  have hsame : w2 = w → False := by
    intro h
    subst h
    rcases hchanged with h1 | h1 <;> exact h1 rfl
  cases hstep with
  | create caller name t =>
    have heq : (createUser s caller name t).2.workouts = s.workouts := by
      unfold createUser
      by_cases hc : s.users.containsKey caller
      · rw [if_pos hc]
      · rw [if_neg hc]
        by_cases hn : isInvalidString name
        · simp [hn]
        · simp [hn]
    rw [heq, hw] at hw2
    exact (hsame (Option.some.inj hw2).symm).elim
  | delete caller =>
    cases hu : s.users.get caller with
    | none =>
      have heq : (deleteUser s caller).2 = s := by simp [deleteUser, hu]
      rw [heq, hw] at hw2
      exact (hsame (Option.some.inj hw2).symm).elim
    | some user =>
      have heq : (deleteUser s caller).2.workouts =
          s.workouts.removeAll user.sessionIds := by simp [deleteUser, hu]
      rw [heq, SMap.get_removeAll] at hw2
      by_cases hin : id ∈ user.sessionIds
      · rw [if_pos hin] at hw2
        exact Option.noConfusion hw2
      · rw [if_neg hin, hw] at hw2
        exact (hsame (Option.some.inj hw2).symm).elim
  | start caller group newId t hfresh =>
    cases hu : s.users.get caller with
    | none =>
      have heq : (startWorkout s caller group newId t).2 = s := by
        simp [startWorkout, hu]
      rw [heq, hw] at hw2
      exact (hsame (Option.some.inj hw2).symm).elim
    | some user =>
      by_cases hb : isInvalidString group
      · have heq : (startWorkout s caller group newId t).2 = s := by
          simp [startWorkout, hu, hb]
        rw [heq, hw] at hw2
        exact (hsame (Option.some.inj hw2).symm).elim
      · by_cases hg : POSSIBLE_GROUPS.contains (jsToLower group) = true
        · have heq : (startWorkout s caller group newId t).2.workouts =
              s.workouts.insert newId
                { id := newId, userId := caller, startedAt := t,
                  finishedAt := 0, calories := 0, muscleGroup := group } := by
            simp only [startWorkout, hu, hb, Bool.false_eq_true, if_false, hg,
              if_true]
          have hidne : id ≠ newId := by
            intro h
            rw [h, hfresh] at hw
            exact Option.noConfusion hw
          rw [heq, SMap.get_insert_ne _ _ _ _ hidne, hw] at hw2
          exact (hsame (Option.some.inj hw2).symm).elim
        · have heq : (startWorkout s caller group newId t).2 = s := by
            simp only [startWorkout, hu, hb, Bool.false_eq_true, if_false, hg]
          rw [heq, hw] at hw2
          exact (hsame (Option.some.inj hw2).symm).elim
  | finish caller wid cal t =>
    by_cases hcc : s.users.containsKey caller = false
    · have heq : (endWorkout s caller wid cal t).2 = s := by
        simp [endWorkout, hcc]
      rw [heq, hw] at hw2
      exact (hsame (Option.some.inj hw2).symm).elim
    · cases hwg : s.workouts.get wid with
      | none =>
        have heq : (endWorkout s caller wid cal t).2 = s := by
          simp [endWorkout, hcc, hwg]
        rw [heq, hw] at hw2
        exact (hsame (Option.some.inj hw2).symm).elim
      | some workout =>
        by_cases hauth : workout.userId ≠ caller
        · have heq : (endWorkout s caller wid cal t).2 = s := by
            simp [endWorkout, hcc, hwg, hauth]
          rw [heq, hw] at hw2
          exact (hsame (Option.some.inj hw2).symm).elim
        · have hauth' : workout.userId = caller := not_not.mp hauth
          have hwidkey : workout.id = wid :=
            hWK (wid, workout) (SMap.get_mem _ _ _ hwg)
          have heq : (endWorkout s caller wid cal t).2.workouts =
              s.workouts.insert wid
                { workout with finishedAt := t, calories := cal } := by
            simp [endWorkout, hcc, hwg, hauth, hwidkey]
          by_cases hid : id = wid
          · subst hid
            have hwworkout : w = workout := Option.some.inj (hw.symm.trans hwg)
            have hw2upd : w2 = { workout with finishedAt := t, calories := cal } := by
              have := hw2
              rw [heq, SMap.get_insert_self] at this
              exact (Option.some.inj this).symm
            refine ⟨cal, t, ?_, ?_, ?_⟩
            · rw [hwworkout, hauth']
            · rw [hwworkout, hauth']
              simp [endWorkout, hcc, hwg, hauth, hw2upd]
            · rw [hw2upd, hwworkout]
          · rw [heq, SMap.get_insert_ne _ _ _ _ hid, hw] at hw2
            exact (hsame (Option.some.inj hw2).symm).elim

theorem c4_witness :
    ∃ calories t,
      stD = (endWorkout stC sessC.userId "w1" calories t).2 ∧
      (endWorkout stC sessC.userId "w1" calories t).1 = .Ok sessD ∧
      sessD = { sessC with finishedAt := t, calories := calories } :=
  c4_completion_updates stC stD reach_stC (Step.finish stC "p" "w1" 200 7) "w1"
    sessC sessD (by decide) (by decide) (Or.inl (by decide))
